import Mathlib

/-!
Verification of the Miqa Assertion Builder form engine
(source: src/streamlit_app.py).

The program is a schema-driven form renderer: a registry of check types,
each mapping field names to field descriptors, and a render pass that
walks the merged field list in order, resolves one value per field from
the user's widget state, and collects the included values into an
ordered Output Document.  We embed the schema data, the dict merge of
line 47, and the render loop of lines 50-80 as executable Lean
definitions, and settle the frozen claims against them.
-/

/-- Default of a field descriptor, i.e. the Python `meta.get("default", "")`
payload.  `missing` is an absent key (resolving to the empty string),
`str` a literal string default, and `genId` the callable default of the
core `id` field, `lambda: f"assertion_{uuid.uuid4().hex[:8]}"` (line 9),
which appends the first 8 characters of a fresh uuid4 hex string. -/
inductive FieldDefault
  | missing
  | str (s : String)
  | genId
deriving DecidableEq, Repr

/-- A field descriptor: the Python dict that describes one field in
`core_fields` or in a schema's `fields` (lines 7-39).  Keys that a given
descriptor omits are represented by the structure defaults, which match
Python's `meta.get(...)` fallbacks: `required`/`optional` absent are
falsy, `default` absent resolves to `""`, `value` absent is a `KeyError`
when read (hence `Option`), `value_from_parent` absent is falsy. -/
structure FieldMeta where
  type : String
  required : Bool := false
  optional : Bool := false
  default : FieldDefault := FieldDefault.missing
  placeholder : String := ""
  options : List String := []
  value : Option String := none
  value_from_parent : Bool := false
deriving DecidableEq, Repr

/-- The `core_fields` dict shared across check types (lines 7-12). -/
def core_fields : List (String × FieldMeta) :=
  [("name", { type := "string", required := true }),
   ("id", { type := "string", optional := true, default := FieldDefault.genId }),
   ("failtype", { type := "select", options := ["fail", "warn"],
                  default := FieldDefault.str "fail" }),
   ("check_type", { type := "fixed", value_from_parent := true })]

/-- The `known_processors` option list (lines 15-19). -/
def known_processors : List String :=
  ["fasta-summary", "bam-index-stats", "vcf-header", "flagstat",
   "bcftools_stats", "miqa_steps_log", "bam_reads_by_name",
   "bam_region_sample", "miqa_ls_txt"]

/-- The `postproc_results` type-specific field dict (lines 23-30). -/
def postproc_fields : List (String × FieldMeta) :=
  [("processor_key", { type := "select", options := known_processors, required := true }),
   ("stat", { type := "expression",
              placeholder := "e.g. data.format == \x27fasta\x27 and data.valid_format" }),
   ("postprocessed_file_pattern", { type := "string", placeholder := "e.g. .*fasta" }),
   ("item_typ1e", { type := "fixed", value := some "outputfile" })]

/-- The `tabular_mdo_eval` type-specific field dict (lines 31-38). -/
def tabular_fields : List (String × FieldMeta) :=
  [("stat", { type := "expression",
              placeholder := "e.g. data.rows.map(\x27%PF\x27).mean() > 0.9" }),
   ("file_rules", { type := "string", placeholder := "e.g. .*\\.csv$" }),
   ("delimiter", { type := "string", placeholder := "," }),
   ("comment_character", { type := "string", optional := true, placeholder := "#" })]

/-- The schema registry `schemas` (lines 22-39), an ordered mapping from
check-type name to that type's `fields` dict. -/
def schemas : List (String × List (String × FieldMeta)) :=
  [("postproc_results", postproc_fields),
   ("tabular_mdo_eval", tabular_fields)]

/-- The Python dict merge `{**core_fields, **extra}` of line 47: keys keep
the position of their first occurrence (so core keys come first, in core
order, followed by the extra keys not present in core, in extra order),
and on a key collision the extra entry's value wins. -/
def mergeFields (core extra : List (String × FieldMeta)) : List (String × FieldMeta) :=
  core.map (fun km => (km.1, (extra.lookup km.1).getD km.2)) ++
    extra.filter (fun km => (core.lookup km.1).isNone)

/-- Embedding of `fieldsFor`: the field set the render loop walks for a check type,
`{**core_fields, **schemas[check_type]["fields"]}` (line 47).  An unknown
check-type name would be a Python `KeyError`, hence `Option`. -/
def fieldsFor (t : String) : Option (List (String × FieldMeta)) :=
  (schemas.lookup t).map (fun extra => mergeFields core_fields extra)

/-- The user's widget state, owned by the presentation layer: `text k` is
the content the user typed into the text widget of field `k` (`none`
when the widget is untouched, in which case it shows the descriptor's
default), and `sel k` is the option index the user picked in the
selectbox of field `k` (`none` when untouched, in which case the
pre-selected index applies). -/
structure UserInput where
  text : String → Option String
  sel : String → Option Nat

/-- Widget state in which the user has touched nothing. -/
def noInput : UserInput :=
  { text := fun _ => none, sel := fun _ => none }

/-- Resolution of a field default (lines 55 and 59-60): `meta.get("default", "")`
followed by `if callable(default): default = default()`.  `uuidHex` stands
for the hex string `uuid.uuid4().hex` that the callable default of the
`id` field draws during this render pass. -/
def resolveDefault (uuidHex : String) : FieldDefault → String
  | FieldDefault.missing => ""
  | FieldDefault.str s => s
  | FieldDefault.genId => "assertion_" ++ uuidHex.take 8

/-- Python's `list.index` for strings: index of the first occurrence
(total here; only ever applied under a `contains` guard, like the
source's `if default in meta["options"]`). -/
def listIndex (d : String) : List String → Nat
  | [] => 0
  | x :: xs => if x == d then 0 else listIndex d xs + 1

/-- The selectbox of line 76-77: the returned value is the option at the
user's chosen index, or at the pre-selected index
`meta["options"].index(default) if default in meta["options"] else 0`
when the widget is untouched.  An out-of-range index (impossible through
the widget) or an empty option list yields `none`, mirroring the widget
returning no value. -/
def selectValue (options : List String) (d : String) (choice : Option Nat) : Option String :=
  options.get? (choice.getD (if options.contains d then listIndex d options else 0))

/-- Outcome of the loop body of lines 53-80 for one field: `err` is an
uncaught Python exception (`meta["value"]` on a fixed field with no
value), `skip` runs the loop without adding the field to `output`, and
`keep v` executes `output[key] = v`. -/
inductive FieldOutcome
  | err
  | skip
  | keep (v : String)
deriving DecidableEq, Repr

/-- One iteration of the render loop (lines 53-80).  A `fixed` field is
written to the output unconditionally (lines 62-64, note the `continue`).
Any other kind resolves a widget value — text content with the default
as fallback for `string`/`expression`, a chosen option for `select`,
and `None` for an unknown kind — and the inclusion check of line 79
(`if value or (meta.get("optional") and value == "")`) keeps the value
unless it is empty and the descriptor is not optional, or there is no
value at all. -/
def processField (checkType uuidHex : String) (inp : UserInput) (key : String)
    (meta : FieldMeta) : FieldOutcome :=
  let d := resolveDefault uuidHex meta.default
  if meta.type == "fixed" then
    match (if meta.value_from_parent then some checkType else meta.value) with
    | some v => FieldOutcome.keep v
    | none => FieldOutcome.err
  else
    let value : Option String :=
      if meta.type == "string" then some ((inp.text key).getD d)
      else if meta.type == "expression" then some ((inp.text key).getD d)
      else if meta.type == "select" then selectValue meta.options d (inp.sel key)
      else none
    match value with
    | none => FieldOutcome.skip
    | some s => if !meta.optional && s == "" then FieldOutcome.skip else FieldOutcome.keep s

/-- The render loop of lines 50-80, threading the ordered `output` dict
through the iterations. -/
def renderLoop (checkType uuidHex : String) (inp : UserInput) :
    List (String × FieldMeta) → List (String × String) → Option (List (String × String))
  | [], out => some out
  | km :: rest, out =>
    match processField checkType uuidHex inp km.1 km.2 with
    | FieldOutcome.err => none
    | FieldOutcome.skip => renderLoop checkType uuidHex inp rest out
    | FieldOutcome.keep v => renderLoop checkType uuidHex inp rest (out ++ [(km.1, v)])

/-- The contract operation `render(fields) -> Output Document`: the full render pass starting
from the empty `output` dict (line 50). -/
def render (checkType uuidHex : String) (inp : UserInput)
    (fields : List (String × FieldMeta)) : Option (List (String × String)) :=
  renderLoop checkType uuidHex inp fields []

/-- The value line 63/67/69/77 computes for a field before the inclusion
check: the fixed value, the text-widget content, or the selected option. -/
def resolvedValue (checkType uuidHex : String) (inp : UserInput) (key : String)
    (meta : FieldMeta) : Option String :=
  let d := resolveDefault uuidHex meta.default
  if meta.type == "fixed" then
    (if meta.value_from_parent then some checkType else meta.value)
  else if meta.type == "string" then some ((inp.text key).getD d)
  else if meta.type == "expression" then some ((inp.text key).getD d)
  else if meta.type == "select" then selectValue meta.options d (inp.sel key)
  else none

/-- Well-formedness of widget state: a selectbox can only report an index
of one of the options it displays. -/
def ValidSel (inp : UserInput) (fields : List (String × FieldMeta)) : Prop :=
  ∀ km ∈ fields, km.2.type = "select" →
    ∀ i, inp.sel km.1 = some i → i < km.2.options.length

/-- Python's `str.strip()` with no argument (line 70): the string with
leading and trailing whitespace removed. -/
def pyStrip (s : String) : String :=
  String.mk (((s.data.dropWhile Char.isWhitespace).reverse.dropWhile Char.isWhitespace).reverse)

/-- Errors of the expression-syntax check.  Each carries a fixed,
non-empty human-readable message, playing the role of the host parser's
`SyntaxError.msg`. -/
inductive ParseErr
  | unexpectedEnd
  | unexpectedToken
  | expectedName
  | expectedClose
  | unterminatedString
  | badChar
  | trailingInput
  | tooDeep
deriving DecidableEq, Repr

/-- The diagnostic text of a syntax error. -/
def ParseErr.message : ParseErr → String
  | ParseErr.unexpectedEnd => "unexpected end of input"
  | ParseErr.unexpectedToken => "unexpected token"
  | ParseErr.expectedName => "expected a name after the dot"
  | ParseErr.expectedClose => "expected a closing parenthesis"
  | ParseErr.unterminatedString => "unterminated string literal"
  | ParseErr.badChar => "invalid character in expression"
  | ParseErr.trailingInput => "unexpected trailing input"
  | ParseErr.tooDeep => "expression too deeply nested"

/-- Tokens of the generic expression grammar. -/
inductive Tok
  | name (s : String)
  | num (s : String)
  | strLit (s : String)
  | lparen
  | rparen
  | dot
  | comma
  | op (s : String)
deriving DecidableEq, Repr

/-- The single-quote character, written by code point to keep literals plain. -/
def quoteChar : Char := Char.ofNat 39

def isIdentStart (c : Char) : Bool := c.isAlpha || c == Char.ofNat 95

def isIdentChar (c : Char) : Bool := c.isAlphanum || c == Char.ofNat 95

def isOpChar (c : Char) : Bool :=
  ['>', '<', '=', '!', '+', '-', '*', '/', '%', '&', '|', '^', '~', ':'].contains c

/-- Fuelled scanner over the character list.  The fuel only guards
termination; every recursive call consumes at least one character, so
`length + 1` fuel never runs out. -/
def tokenizeF : Nat → List Char → Except ParseErr (List Tok)
  | 0, _ => Except.error ParseErr.tooDeep
  | _, [] => Except.ok []
  | fuel + 1, c :: cs =>
    if c.isWhitespace then tokenizeF fuel cs
    else if isIdentStart c then do
      let rest ← tokenizeF fuel (List.dropWhile isIdentChar (c :: cs))
      Except.ok (Tok.name (String.mk (List.takeWhile isIdentChar (c :: cs))) :: rest)
    else if c.isDigit then
      let ds := List.takeWhile Char.isDigit (c :: cs)
      match List.dropWhile Char.isDigit (c :: cs) with
      | dc :: r2 =>
        if dc == '.' && (r2.headD quoteChar).isDigit then do
          let fs := List.takeWhile Char.isDigit r2
          let rest ← tokenizeF fuel (List.dropWhile Char.isDigit r2)
          Except.ok (Tok.num (String.mk (ds ++ dc :: fs)) :: rest)
        else do
          let rest ← tokenizeF fuel (dc :: r2)
          Except.ok (Tok.num (String.mk ds) :: rest)
      | [] => Except.ok [Tok.num (String.mk ds)]
    else if c == quoteChar then
      match List.dropWhile (fun x => x != quoteChar) cs with
      | _ :: r2 => do
        let rest ← tokenizeF fuel r2
        Except.ok (Tok.strLit (String.mk (List.takeWhile (fun x => x != quoteChar) cs)) :: rest)
      | [] => Except.error ParseErr.unterminatedString
    else if c == '(' then do
      let rest ← tokenizeF fuel cs
      Except.ok (Tok.lparen :: rest)
    else if c == ')' then do
      let rest ← tokenizeF fuel cs
      Except.ok (Tok.rparen :: rest)
    else if c == '.' then do
      let rest ← tokenizeF fuel cs
      Except.ok (Tok.dot :: rest)
    else if c == ',' then do
      let rest ← tokenizeF fuel cs
      Except.ok (Tok.comma :: rest)
    else if isOpChar c then do
      let rest ← tokenizeF fuel (List.dropWhile isOpChar (c :: cs))
      Except.ok (Tok.op (String.mk (List.takeWhile isOpChar (c :: cs))) :: rest)
    else Except.error ParseErr.badChar

def tokenize (cs : List Char) : Except ParseErr (List Tok) :=
  tokenizeF (cs.length + 1) cs

/-- A word that acts as an infix keyword operator in the grammar. -/
def isKeywordOp (w : String) : Bool :=
  w == "and" || w == "or" || w == "not" || w == "in" || w == "is"

mutual

/-- Grammar rule `expr := unit (binop unit)*` — fuelled recursive descent; each parser
returns the unconsumed tokens. -/
def pExpr : Nat → List Tok → Except ParseErr (List Tok)
  | 0, _ => Except.error ParseErr.tooDeep
  | fuel + 1, ts => do
    let ts1 ← pUnit fuel ts
    pTail fuel ts1

/-- The `(binop unit)*` tail of an expression. -/
def pTail : Nat → List Tok → Except ParseErr (List Tok)
  | 0, _ => Except.error ParseErr.tooDeep
  | fuel + 1, ts =>
    match ts with
    | Tok.op _ :: r => do
      let r1 ← pUnit fuel r
      pTail fuel r1
    | Tok.name w :: r =>
      if isKeywordOp w then do
        let r1 ← pUnit fuel r
        pTail fuel r1
      else Except.ok ts
    | _ => Except.ok ts

/-- Grammar rule `unit := atom trailer*`. -/
def pUnit : Nat → List Tok → Except ParseErr (List Tok)
  | 0, _ => Except.error ParseErr.tooDeep
  | fuel + 1, ts => do
    let ts1 ← pAtom fuel ts
    pTrail fuel ts1

/-- Grammar rule `atom := name | number | string | ( expr )`. -/
def pAtom : Nat → List Tok → Except ParseErr (List Tok)
  | 0, _ => Except.error ParseErr.tooDeep
  | fuel + 1, ts =>
    match ts with
    | Tok.name _ :: r => Except.ok r
    | Tok.num _ :: r => Except.ok r
    | Tok.strLit _ :: r => Except.ok r
    | Tok.lparen :: r => do
      let r1 ← pExpr fuel r
      match r1 with
      | Tok.rparen :: r2 => Except.ok r2
      | _ => Except.error ParseErr.expectedClose
    | [] => Except.error ParseErr.unexpectedEnd
    | _ => Except.error ParseErr.unexpectedToken

/-- Grammar rule `trailer := . name | ( ) | ( args )`, iterated. -/
def pTrail : Nat → List Tok → Except ParseErr (List Tok)
  | 0, _ => Except.error ParseErr.tooDeep
  | fuel + 1, ts =>
    match ts with
    | Tok.dot :: r =>
      match r with
      | Tok.name _ :: r2 => pTrail fuel r2
      | _ => Except.error ParseErr.expectedName
    | Tok.lparen :: r =>
      match r with
      | Tok.rparen :: r2 => pTrail fuel r2
      | _ => do
        let r1 ← pArgs fuel r
        match r1 with
        | Tok.rparen :: r2 => pTrail fuel r2
        | _ => Except.error ParseErr.expectedClose
    | _ => Except.ok ts

/-- Grammar rule `args := expr (, expr)*`. -/
def pArgs : Nat → List Tok → Except ParseErr (List Tok)
  | 0, _ => Except.error ParseErr.tooDeep
  | fuel + 1, ts => do
    let ts1 ← pExpr fuel ts
    match ts1 with
    | Tok.comma :: r => pArgs fuel r
    | _ => Except.ok ts1

end

/-- Modelled from the spec: the syntax-only check of a value "as a single
expression in a generic expression grammar (no evaluation)".  The source
delegates this to the host language's parser (`ast.parse(value,
mode="eval")`, line 72), which is not part of this repository's sources,
so the grammar here follows the spec's description: names, numbers,
single-quoted strings, attribute access, call trailers with argument
lists, parenthesised sub-expressions, and infix operators. -/
def parseExpr (value : String) : Except ParseErr Unit := do
  let toks ← tokenize value.data
  let rest ← pExpr (4 * (toks.length + 1)) toks
  match rest with
  | [] => Except.ok ()
  | _ => Except.error ParseErr.trailingInput

/-- What the expression branch (lines 68-75) surfaces next to the field:
nothing, the success note, or the inline diagnostic built from the
parser's error message. -/
inductive ExprFeedback
  | none
  | valid
  | invalid (msg : String)
deriving DecidableEq, Repr

/-- The validation of lines 70-75: only a value that is non-blank after
stripping (`if value.strip():`) is parsed; a parse failure surfaces
`st.error` with the parser's message, a success surfaces the `st.success`
informational note. -/
def exprFeedback (value : String) : ExprFeedback :=
  if pyStrip value == "" then ExprFeedback.none
  else
    match parseExpr value with
    | Except.ok _ => ExprFeedback.valid
    | Except.error e => ExprFeedback.invalid ("Invalid expression: " ++ e.message)

/-- The value a field outcome contributes to the output, if any. -/
def keepValue : FieldOutcome → Option String
  | FieldOutcome.keep v => some v
  | _ => none

/-- The output entry one field contributes. -/
def outEntry (checkType uuidHex : String) (inp : UserInput) (km : String × FieldMeta) :
    Option (String × String) :=
  match processField checkType uuidHex inp km.1 km.2 with
  | FieldOutcome.keep v => some (km.1, v)
  | _ => none

/-- The core `name` descriptor (line 8), named for use in proofs. -/
def nameMeta : FieldMeta := { type := "string", required := true }

/-- The core `id` descriptor (line 9). -/
def idMeta : FieldMeta := { type := "string", optional := true, default := FieldDefault.genId }

/-- The core `failtype` descriptor (line 10). -/
def failtypeMeta : FieldMeta :=
  { type := "select", options := ["fail", "warn"], default := FieldDefault.str "fail" }

/-- The core `check_type` descriptor (line 11). -/
def checkTypeMeta : FieldMeta := { type := "fixed", value_from_parent := true }

/-- The `processor_key` descriptor of `postproc_results` (line 25). -/
def processorKeyMeta : FieldMeta :=
  { type := "select", options := known_processors, required := true }

/-- The `item_typ1e` descriptor of `postproc_results` (line 28). -/
def itemTyp1eMeta : FieldMeta := { type := "fixed", value := some "outputfile" }

/-- A hexadecimal digit as `uuid4().hex` produces them (lowercase). -/
def isHexDigit (c : Char) : Bool :=
  c.isDigit || (decide (Char.ofNat 97 ≤ c) && decide (c ≤ Char.ofNat 102))

/-- The pattern of the claim on generated identifiers: the literal
`assertion_` followed by exactly 8 hexadecimal characters. -/
def matchesIdPattern (s : String) : Bool :=
  (s.data.take 10 == "assertion_".data) && ((s.data.drop 10).length == 8) &&
    (s.data.drop 10).all isHexDigit

/-- The part of `uuid.uuid4().hex` that the `id` default consumes: its
first 8 characters are 8 hexadecimal digits.  (`uuid4().hex` is 32
lowercase hexadecimal characters; the library is outside the sources,
so this is taken as a hypothesis where needed.) -/
@[reducible]
def HexSeed8 (g : String) : Prop :=
  (g.take 8).data.length = 8 ∧ (g.take 8).data.all isHexDigit = true

/-- The widget state of the C3 scenario: the user typed `t1` into `name`
and picked `flagstat` (option index 3) in `processor_key`, touching
nothing else, so `stat` and `postprocessed_file_pattern` stay empty. -/
def c3input : UserInput :=
  { text := fun k => if k == "name" then some "t1" else none,
    sel := fun k => if k == "processor_key" then some 3 else none }

/-- A field descriptor whose kind is none of the four known kinds. -/
def bogusField : FieldMeta := { type := "mystery_kind" }

theorem outEntry_fst {t g : String} {inp : UserInput} {km : String × FieldMeta}
    {p : String × String} (h : outEntry t g inp km = some p) : p.1 = km.1 := by
  unfold outEntry at h
  cases hp : processField t g inp km.1 km.2 <;> rw [hp] at h <;> simp at h
  simp [← h]

theorem outEntry_eq_keepValue (t g : String) (inp : UserInput) (km : String × FieldMeta) :
    outEntry t g inp km = (keepValue (processField t g inp km.1 km.2)).map (fun v => (km.1, v)) := by
  unfold outEntry keepValue
  cases processField t g inp km.1 km.2 <;> rfl

theorem renderLoop_some_of_noErr (t g : String) (inp : UserInput) :
    ∀ (fields : List (String × FieldMeta)) (acc : List (String × String)),
      (∀ km ∈ fields, processField t g inp km.1 km.2 ≠ FieldOutcome.err) →
      renderLoop t g inp fields acc = some (acc ++ fields.filterMap (outEntry t g inp)) := by
  intro fields
  induction fields with
  | nil => intro acc _; simp [renderLoop]
  | cons km rest ih =>
    intro acc h
    have hkm := h km (by simp)
    have hrest : ∀ km2 ∈ rest, processField t g inp km2.1 km2.2 ≠ FieldOutcome.err := by
      intro km2 hm; exact h km2 (by simp [hm])
    cases hp : processField t g inp km.1 km.2 with
    | err => exact absurd hp hkm
    | skip =>
      simp only [renderLoop, hp, List.filterMap_cons, outEntry, ih _ hrest]
    | keep v =>
      simp only [renderLoop, hp, List.filterMap_cons, outEntry, ih _ hrest]
      simp

theorem renderLoop_some_inv (t g : String) (inp : UserInput) :
    ∀ (fields : List (String × FieldMeta)) (acc out : List (String × String)),
      renderLoop t g inp fields acc = some out →
      out = acc ++ fields.filterMap (outEntry t g inp) := by
  intro fields
  induction fields with
  | nil =>
    intro acc out h
    simp [renderLoop] at h
    simp [h]
  | cons km rest ih =>
    intro acc out h
    cases hp : processField t g inp km.1 km.2 with
    | err => simp [renderLoop, hp] at h
    | skip =>
      simp only [renderLoop, hp] at h
      simp only [List.filterMap_cons, outEntry, hp, ih _ _ h]
    | keep v =>
      simp only [renderLoop, hp] at h
      simp only [List.filterMap_cons, outEntry, hp, ih _ _ h]
      simp

theorem render_some_of_noErr (t g : String) (inp : UserInput)
    (fields : List (String × FieldMeta))
    (h : ∀ km ∈ fields, processField t g inp km.1 km.2 ≠ FieldOutcome.err) :
    render t g inp fields = some (fields.filterMap (outEntry t g inp)) := by
  simpa [render] using renderLoop_some_of_noErr t g inp fields [] h

theorem render_some_inv (t g : String) (inp : UserInput)
    (fields : List (String × FieldMeta)) (out : List (String × String))
    (h : render t g inp fields = some out) :
    out = fields.filterMap (outEntry t g inp) := by
  simpa using renderLoop_some_inv t g inp fields [] out h

theorem lookup_outEntry_notMem (t g : String) (inp : UserInput) (k : String) :
    ∀ (fields : List (String × FieldMeta)), (∀ km ∈ fields, km.1 ≠ k) →
      (fields.filterMap (outEntry t g inp)).lookup k = none := by
  intro fields
  induction fields with
  | nil => intro _; simp
  | cons km rest ih =>
    intro h
    have hk : km.1 ≠ k := h km (by simp)
    have hrest : ∀ km2 ∈ rest, km2.1 ≠ k := fun km2 hm => h km2 (by simp [hm])
    rw [List.filterMap_cons]
    cases he : outEntry t g inp km with
    | none => exact ih hrest
    | some p =>
      have hp1 : p.1 = km.1 := outEntry_fst he
      cases p with
      | mk pk pv =>
        simp only at hp1
        subst hp1
        simp only [List.lookup]
        have : (k == km.1) = false := by
          simp [beq_eq_false_iff_ne]
          exact fun hkk => hk hkk.symm
        rw [this]
        exact ih hrest

theorem lookup_outEntry_mem (t g : String) (inp : UserInput) :
    ∀ (fields : List (String × FieldMeta)) (k : String) (m : FieldMeta),
      (fields.map Prod.fst).Nodup → (k, m) ∈ fields →
      (fields.filterMap (outEntry t g inp)).lookup k =
        keepValue (processField t g inp k m) := by
  intro fields
  induction fields with
  | nil => intro k m _ hm; simp at hm
  | cons km rest ih =>
    intro k m hnd hm
    have hnd' : km.1 ∉ rest.map Prod.fst ∧ (rest.map Prod.fst).Nodup := by
      simpa using hnd
    rw [List.filterMap_cons]
    rcases List.mem_cons.mp hm with heq | hmem
    · subst heq
      rw [outEntry_eq_keepValue]
      cases hkv : keepValue (processField t g inp k m) with
      | none =>
        simp only [Option.map_none']
        apply lookup_outEntry_notMem
        intro km2 hm2 hkk
        have hin : km2.1 ∈ rest.map Prod.fst := List.mem_map_of_mem Prod.fst hm2
        rw [hkk] at hin
        exact hnd'.1 hin
      | some v =>
        simp [List.lookup]
    · have hk : km.1 ≠ k := by
        intro hkk
        apply hnd'.1
        rw [hkk]
        exact List.mem_map_of_mem Prod.fst hmem
      cases he : outEntry t g inp km with
      | none => exact ih k m hnd'.2 hmem
      | some p =>
        have hp1 : p.1 = km.1 := outEntry_fst he
        cases p with
        | mk pk pv =>
          simp only at hp1
          subst hp1
          simp only [List.lookup]
          have : (k == km.1) = false := by
            simp [beq_eq_false_iff_ne]
            exact fun hkk => hk hkk.symm
          rw [this]
          exact ih k m hnd'.2 hmem

theorem lookup_of_keep (t g : String) (inp : UserInput)
    (fields : List (String × FieldMeta)) (out : List (String × String))
    (k : String) (m : FieldMeta) (v : String)
    (hnd : (fields.map Prod.fst).Nodup) (hm : (k, m) ∈ fields)
    (hp : processField t g inp k m = FieldOutcome.keep v)
    (h : render t g inp fields = some out) :
    out.lookup k = some v := by
  rw [render_some_inv t g inp fields out h, lookup_outEntry_mem t g inp fields k m hnd hm, hp]
  rfl

theorem processField_ne_err_of_ne_fixed (t g : String) (inp : UserInput) (k : String)
    (m : FieldMeta) (h : (m.type == "fixed") = false) :
    processField t g inp k m ≠ FieldOutcome.err := by
  unfold processField
  rw [h]
  simp only [Bool.false_eq_true, if_false]
  split
  · intro hc; exact FieldOutcome.noConfusion hc
  · split
    · intro hc; exact FieldOutcome.noConfusion hc
    · intro hc; exact FieldOutcome.noConfusion hc

theorem processField_fixed_parent (t g : String) (inp : UserInput) (k : String)
    (m : FieldMeta) (h1 : m.type = "fixed") (h2 : m.value_from_parent = true) :
    processField t g inp k m = FieldOutcome.keep t := by
  unfold processField
  rw [h1, h2]
  rfl

theorem processField_fixed_value (t g : String) (inp : UserInput) (k : String)
    (m : FieldMeta) (v : String) (h1 : m.type = "fixed")
    (h2 : m.value_from_parent = false) (h3 : m.value = some v) :
    processField t g inp k m = FieldOutcome.keep v := by
  unfold processField
  rw [h1, h2, h3]
  rfl

theorem processField_g_congr (t g1 g2 : String) (inp : UserInput) (k : String)
    (m : FieldMeta) (h : m.default ≠ FieldDefault.genId) :
    processField t g1 inp k m = processField t g2 inp k m := by
  have hd : resolveDefault g1 m.default = resolveDefault g2 m.default := by
    cases hm : m.default with
    | missing => rfl
    | str s => rfl
    | genId => exact absurd hm h
  unfold processField
  rw [hd]

theorem outEntry_g_congr (t g1 g2 : String) (inp : UserInput) (km : String × FieldMeta)
    (h : km.2.default ≠ FieldDefault.genId) :
    outEntry t g1 inp km = outEntry t g2 inp km := by
  unfold outEntry
  rw [processField_g_congr t g1 g2 inp km.1 km.2 h]

theorem string_append_ne_empty (s t : String) (h : s.data ≠ []) : s ++ t ≠ "" := by
  intro he
  apply h
  have hd : s.data ++ t.data = [] := by
    rw [← String.data_append]
    rw [he]
  exact (List.append_eq_nil.mp hd).1

theorem matchesIdPattern_append (u : String) (h1 : u.data.length = 8)
    (h2 : u.data.all isHexDigit = true) :
    matchesIdPattern ("assertion_" ++ u) = true := by
  have h10 : ("assertion_".data).length = 10 := by decide
  unfold matchesIdPattern
  rw [String.data_append, List.take_left' h10, List.drop_left' h10, h1, h2]
  decide

theorem lookup_append_cons_ne (k k0 a b : String) (X Y : List (String × String))
    (h : k ≠ k0) :
    (X ++ (k0, a) :: Y).lookup k = (X ++ (k0, b) :: Y).lookup k := by
  induction X with
  | nil =>
    simp only [List.nil_append, List.lookup]
    have : (k == k0) = false := by
      simp [beq_eq_false_iff_ne, h]
    rw [this]
  | cons x X ih =>
    simp only [List.cons_append, List.lookup]
    cases k == x.1 <;> simp [ih]

theorem lookup_append_left_none (k : String) (X Y : List (String × String))
    (h : X.lookup k = none) : (X ++ Y).lookup k = Y.lookup k := by
  induction X with
  | nil => simp
  | cons x X ih =>
    simp only [List.cons_append, List.lookup] at *
    cases hk : k == x.1 with
    | false => rw [hk] at h; exact ih h
    | true => rw [hk] at h; exact Option.noConfusion h

theorem filterMap_cons_toList {α β : Type} (f : α → Option β) (a : α) (l : List α) :
    List.filterMap f (a :: l) = (f a).toList ++ List.filterMap f l := by
  rw [List.filterMap_cons]
  cases f a <;> simp

theorem filterMap_outEntry_congr (t g1 g2 : String) (inp : UserInput) :
    ∀ (l : List (String × FieldMeta)),
      (∀ km ∈ l, km.2.default ≠ FieldDefault.genId) →
      l.filterMap (outEntry t g1 inp) = l.filterMap (outEntry t g2 inp) := by
  intro l
  induction l with
  | nil => intro _; simp only [List.filterMap_nil]
  | cons km rest ih =>
    intro h
    rw [List.filterMap_cons, List.filterMap_cons,
      outEntry_g_congr t g1 g2 inp km (h km (by simp)),
      ih (fun km2 hm => h km2 (by simp [hm]))]

theorem listIndex_lt_length (d : String) :
    ∀ (l : List String), d ∈ l → listIndex d l < l.length := by
  intro l
  induction l with
  | nil => intro h; simp at h
  | cons x xs ih =>
    intro h
    unfold listIndex
    cases hx : x == d with
    | true => simp
    | false =>
      have hd : d ∈ xs := by
        rcases List.mem_cons.mp h with heq | hm
        · rw [heq] at hx; simp at hx
        · exact hm
      simp only [Bool.false_eq_true, if_false, List.length_cons]
      exact Nat.succ_lt_succ (ih hd)

theorem get?_zero_eq_head? {α : Type} (l : List α) : l.get? 0 = l.head? := by
  cases l <;> rfl

/-- Per-kind outcome of a `string` or `expression` field: the resolved
value is the text-widget content, and it is kept exactly when the
inclusion rule of line 79 admits it. -/
theorem processField_text (t g : String) (inp : UserInput) (k : String) (m : FieldMeta)
    (h : m.type = "string" ∨ m.type = "expression") :
    ∃ v, resolvedValue t g inp k m = some v ∧
      (keepValue (processField t g inp k m) = some v ↔
        (v ≠ "" ∨ (m.optional = true ∧ v = ""))) := by
  have hfix : (m.type == "fixed") = false := by
    rcases h with h | h <;> rw [h] <;> decide
  refine ⟨(inp.text k).getD (resolveDefault g m.default), ?_, ?_⟩
  · unfold resolvedValue
    rw [hfix]
    rcases h with h | h <;> rw [h] <;> simp
  · unfold processField
    rw [hfix]
    have hval : (if m.type == "string" then some ((inp.text k).getD (resolveDefault g m.default))
        else if m.type == "expression" then some ((inp.text k).getD (resolveDefault g m.default))
        else if m.type == "select" then selectValue m.options (resolveDefault g m.default) (inp.sel k)
        else none) = some ((inp.text k).getD (resolveDefault g m.default)) := by
      rcases h with h | h <;> rw [h] <;> simp
    simp only [Bool.false_eq_true, if_false, hval]
    set s := (inp.text k).getD (resolveDefault g m.default) with hs
    by_cases hse : s = ""
    · rw [hse]
      cases ho : m.optional with
      | true => simp [keepValue]
      | false => simp [keepValue]
    · have : (s == "") = false := by simp [beq_eq_false_iff_ne, hse]
      rw [this]
      simp [keepValue, hse]

/-- Per-kind outcome of a `select` field with non-empty options, none of
them the empty string, under well-formed widget state: the resolved
value is one of the options and is always kept. -/
theorem processField_select (t g : String) (inp : UserInput) (k : String) (m : FieldMeta)
    (h : m.type = "select") (hne : m.options ≠ [])
    (hval : ∀ i, inp.sel k = some i → i < m.options.length)
    (hopts : ∀ v ∈ m.options, v ≠ "") :
    ∃ v, resolvedValue t g inp k m = some v ∧ v ∈ m.options ∧
      keepValue (processField t g inp k m) = some v := by
  have hfix : (m.type == "fixed") = false := by rw [h]; decide
  have hstr : (m.type == "string") = false := by rw [h]; decide
  have hexp : (m.type == "expression") = false := by rw [h]; decide
  have hsel : (m.type == "select") = true := by rw [h]; decide
  obtain ⟨v, hv, hvm⟩ :
      ∃ v, selectValue m.options (resolveDefault g m.default) (inp.sel k) = some v ∧
        v ∈ m.options := by
    unfold selectValue
    cases hc : inp.sel k with
    | some i =>
      have hi : i < m.options.length := hval i hc
      refine ⟨m.options.get ⟨i, hi⟩, ?_, List.get_mem _ _ _⟩
      simp only [Option.getD_some]
      exact List.get?_eq_get hi
    | none =>
      by_cases hcont : m.options.contains (resolveDefault g m.default) = true
      · have hdm : (resolveDefault g m.default) ∈ m.options := List.elem_iff.mp hcont
        have hi : listIndex (resolveDefault g m.default) m.options < m.options.length :=
          listIndex_lt_length _ _ hdm
        refine ⟨m.options.get ⟨_, hi⟩, ?_, List.get_mem _ _ _⟩
        simp only [Option.getD_none, if_pos hcont]
        exact List.get?_eq_get hi
      · cases hop : m.options with
        | nil => exact absurd hop hne
        | cons o os =>
          rw [hop] at hcont
          refine ⟨o, ?_, List.mem_cons_self o os⟩
          simp only [Option.getD_none, if_neg hcont]
          rfl
  refine ⟨v, ?_, hvm, ?_⟩
  · unfold resolvedValue
    rw [hfix]
    simp only [Bool.false_eq_true, if_false]
    rw [hstr]
    simp only [Bool.false_eq_true, if_false]
    rw [hexp]
    simp only [Bool.false_eq_true, if_false]
    rw [hsel]
    simp only [if_true]
    exact hv
  · unfold processField
    rw [hfix]
    simp only [Bool.false_eq_true, if_false]
    rw [hstr]
    simp only [Bool.false_eq_true, if_false]
    rw [hexp]
    simp only [Bool.false_eq_true, if_false]
    rw [hsel]
    simp only [if_true]
    rw [hv]
    have : (v == "") = false := by simp [beq_eq_false_iff_ne]; exact hopts v hvm
    simp only [this, Bool.and_false, Bool.false_eq_true, if_false]
    rfl

/-- Claim C3: for check type `postproc_results` with user input
`name="t1"`, `processor_key="flagstat"`, and `stat` and
`postprocessed_file_pattern` left empty, the Output Document holds
exactly the keys `name`, `id`, `failtype`, `check_type`,
`processor_key`, `item_typ1e` with values `t1`, the generated
identifier, `fail`, `postproc_results`, `flagstat`, `outputfile`, and no
`stat` or `postprocessed_file_pattern` key — for any uuid hex string `g`
drawn during the render pass. -/
theorem postproc_example_c3 (g : String) :
    render "postproc_results" g c3input (mergeFields core_fields postproc_fields) =
      some [("name", "t1"), ("id", "assertion_" ++ g.take 8), ("failtype", "fail"),
            ("check_type", "postproc_results"), ("processor_key", "flagstat"),
            ("item_typ1e", "outputfile")] := rfl

/-- Claim C9: the `required` flag on a field descriptor is never
enforced.  First, the loop body's outcome is oblivious to the flag:
toggling `required` on any descriptor never changes it.  Second,
concretely, rendering `postproc_results` with all widgets untouched —
so the required `name` is empty — succeeds and yields an Output
Document with no `name` key, and the empty `stat` expression value
surfaces no diagnostic. -/
theorem required_unenforced_c9 :
    (∀ (t g : String) (inp : UserInput) (k : String) (m : FieldMeta) (b : Bool),
       processField t g inp k m = processField t g inp k
         { type := m.type, required := b, optional := m.optional, default := m.default,
           placeholder := m.placeholder, options := m.options, value := m.value,
           value_from_parent := m.value_from_parent }) ∧
    (∀ g : String, ∃ out,
       render "postproc_results" g noInput (mergeFields core_fields postproc_fields) = some out ∧
       out.lookup "name" = none ∧ exprFeedback "" = ExprFeedback.none) :=
  ⟨fun _ _ _ _ m _ => by cases m; rfl,
   fun g => ⟨[("id", "assertion_" ++ g.take 8), ("failtype", "fail"),
              ("check_type", "postproc_results"), ("processor_key", "fasta-summary"),
              ("item_typ1e", "outputfile")], rfl, rfl, rfl⟩⟩

/-- Counterexample to claim C5 as stated: a schema containing a field of
unknown kind does not make rendering fail — the render pass still
produces an Output Document (silently omitting the unknown-kind field),
so the failure the claim requires does not happen. -/
theorem unknown_kind_c5_counterexample :
    render "postproc_results" "00000000000000000000000000000000" noInput
        (mergeFields core_fields [("mystery_field", bogusField)]) =
      some [("id", "assertion_00000000"), ("failtype", "fail"),
            ("check_type", "postproc_results")] := by decide

/-- Claim C5 (amended): a field descriptor whose kind is none of
`fixed`, `string`, `select`, `expression` is not a fatal error; the
render loop leaves its value unset and silently skips it, so it is
omitted from the Output Document while rendering succeeds for the
remaining fields. -/
theorem unknown_kind_c5 (t g : String) (inp : UserInput) (k : String) (m : FieldMeta)
    (h1 : (m.type == "fixed") = false) (h2 : (m.type == "string") = false)
    (h3 : (m.type == "expression") = false) (h4 : (m.type == "select") = false) :
    processField t g inp k m = FieldOutcome.skip := by
  unfold processField
  simp only [h1, h2, h3, h4, Bool.false_eq_true, if_false]

theorem unknown_kind_c5_witness :
    ((bogusField.type == "fixed") = false) ∧ ((bogusField.type == "string") = false) ∧
    ((bogusField.type == "expression") = false) ∧ ((bogusField.type == "select") = false) ∧
    processField "postproc_results" "" noInput "mystery_field" bogusField = FieldOutcome.skip :=
  ⟨by decide, by decide, by decide, by decide,
   unknown_kind_c5 "postproc_results" "" noInput "mystery_field" bogusField
     (by decide) (by decide) (by decide) (by decide)⟩

/-- Claim C2: for every check type in the registry, `fieldsFor` yields an
ordered mapping (distinct keys) that contains every core field name and
every type-specific field name, the type-specific descriptor winning on
a name collision and the core descriptor surviving otherwise. -/
theorem fields_for_c2 (t : String) (extra : List (String × FieldMeta))
    (h : (t, extra) ∈ schemas) :
    ∃ fs, fieldsFor t = some fs ∧
      (fs.map Prod.fst).Nodup ∧
      (∀ km ∈ core_fields, (fs.lookup km.1).isSome = true) ∧
      (∀ km ∈ extra, fs.lookup km.1 = some km.2) ∧
      (∀ km ∈ core_fields, extra.lookup km.1 = none → fs.lookup km.1 = some km.2) := by
  simp only [schemas, List.mem_cons, List.not_mem_nil, or_false, Prod.mk.injEq] at h
  rcases h with ⟨ht, he⟩ | ⟨ht, he⟩ <;> subst ht <;> subst he <;>
    exact ⟨_, rfl, by decide, by decide, by decide, by decide⟩

theorem fields_for_c2_witness :
    ("postproc_results", postproc_fields) ∈ schemas ∧
    (∃ fs, fieldsFor "postproc_results" = some fs ∧
      (fs.map Prod.fst).Nodup ∧
      (∀ km ∈ core_fields, (fs.lookup km.1).isSome = true) ∧
      (∀ km ∈ postproc_fields, fs.lookup km.1 = some km.2) ∧
      (∀ km ∈ core_fields, postproc_fields.lookup km.1 = none → fs.lookup km.1 = some km.2)) :=
  ⟨by decide, fields_for_c2 "postproc_results" postproc_fields (by decide)⟩

/-- Claim C6: the value a select field resolves is always one of the
descriptor's enumerated options, and when the default is missing from
the option list (in particular when there is no default), the
pre-selected value — the one resolved with the widget untouched — is
the first option. -/
theorem select_options_c6 :
    (∀ (options : List String) (d : String) (choice : Option Nat) (v : String),
       selectValue options d choice = some v → v ∈ options) ∧
    (∀ (options : List String) (d : String), d ∉ options →
       selectValue options d none = options.head?) := by
  constructor
  · intro options d choice v hv
    unfold selectValue at hv
    exact List.get?_mem hv
  · intro options d hd
    have hcont : ¬(options.contains d = true) := fun hc => hd (List.elem_iff.mp hc)
    unfold selectValue
    simp only [Option.getD_none, if_neg hcont]
    exact get?_zero_eq_head? options

theorem select_options_c6_witness :
    (selectValue ["fail", "warn"] "nope" none = some "fail" → "fail" ∈ ["fail", "warn"]) ∧
    ("nope" ∉ ["fail", "warn"]) ∧
    selectValue ["fail", "warn"] "nope" none = List.head? ["fail", "warn"] :=
  ⟨fun h => select_options_c6.1 ["fail", "warn"] "nope" none "fail" h, by decide,
   select_options_c6.2 ["fail", "warn"] "nope" (by decide)⟩

/-- Counterexample to claim C4 as stated: the value `" "` is non-empty,
yet the code surfaces neither a diagnostic nor a note for it, because
line 70 gates validation on `value.strip()` being non-blank rather than
on the value being non-empty. -/
theorem expression_validation_c4_counterexample :
    ¬(∀ v : String, v ≠ "" → exprFeedback v ≠ ExprFeedback.none) := by
  intro h
  exact h " " (by decide) (by decide)

/-- Claim C4 (amended): an expression field's value is parsed as a single
expression exactly when it is non-blank after stripping whitespace (a
whitespace-only value is not validated and surfaces nothing); on parse
failure a non-empty diagnostic carrying the parser's message is
surfaced, on success only the informational note.  In particular the
value `data.rows.map('%PF').mean() > 0.9` validates with no diagnostic
and `data.rows.map((` fails with a non-empty diagnostic. -/
theorem expression_validation_c4 :
    (∀ v : String, pyStrip v = "" → exprFeedback v = ExprFeedback.none) ∧
    (∀ v : String, pyStrip v ≠ "" →
      (parseExpr v = Except.ok () ∧ exprFeedback v = ExprFeedback.valid) ∨
      (∃ e, parseExpr v = Except.error e ∧
        exprFeedback v = ExprFeedback.invalid ("Invalid expression: " ++ ParseErr.message e) ∧
        ("Invalid expression: " ++ ParseErr.message e) ≠ "")) ∧
    exprFeedback "data.rows.map(\x27%PF\x27).mean() > 0.9" = ExprFeedback.valid ∧
    (∃ msg, exprFeedback "data.rows.map((" = ExprFeedback.invalid msg ∧ msg ≠ "") := by
  refine ⟨?_, ?_, by decide, ?_⟩
  · intro v h
    unfold exprFeedback
    rw [if_pos (by simp [h])]
  · intro v h
    have hb : (pyStrip v == "") = false := by simp [beq_eq_false_iff_ne, h]
    unfold exprFeedback
    rw [hb]
    simp only [Bool.false_eq_true, if_false]
    cases hp : parseExpr v with
    | ok u =>
      cases u
      exact Or.inl ⟨rfl, rfl⟩
    | error e =>
      exact Or.inr ⟨e, rfl, rfl,
        string_append_ne_empty "Invalid expression: " (ParseErr.message e) (by decide)⟩
  · exact ⟨"Invalid expression: " ++ ParseErr.message ParseErr.unexpectedEnd, by decide, by decide⟩

/-- Claim C7: a fixed field resolves to the literal configured value or,
when flagged value-from-parent, to the selected check-type name; it is
always written to the Output Document, independent of the inclusion
rule and without user interaction; and in particular `check_type`
always equals the selected check-type name. -/
theorem fixed_fields_c7 :
    (∀ (t g : String) (inp : UserInput) (fields : List (String × FieldMeta))
       (out : List (String × String)) (k : String) (m : FieldMeta),
       (fields.map Prod.fst).Nodup → (k, m) ∈ fields → m.type = "fixed" →
       render t g inp fields = some out →
       ((m.value_from_parent = true → out.lookup k = some t) ∧
        (∀ v, m.value_from_parent = false → m.value = some v → out.lookup k = some v))) ∧
    (∀ (t : String) (extra : List (String × FieldMeta)), (t, extra) ∈ schemas →
       ∀ (g : String) (inp : UserInput) (out : List (String × String)),
         render t g inp (mergeFields core_fields extra) = some out →
         out.lookup "check_type" = some t) := by
  constructor
  · intro t g inp fields out k m hnd hm htype hr
    constructor
    · intro hv
      exact lookup_of_keep t g inp fields out k m t hnd hm
        (processField_fixed_parent t g inp k m htype hv) hr
    · intro v hv hval
      exact lookup_of_keep t g inp fields out k m v hnd hm
        (processField_fixed_value t g inp k m v htype hv hval) hr
  · intro t extra hmem g inp out hr
    simp only [schemas, List.mem_cons, List.not_mem_nil, or_false, Prod.mk.injEq] at hmem
    rcases hmem with ⟨ht, he⟩ | ⟨ht, he⟩ <;> subst ht <;> subst he
    · exact lookup_of_keep _ g inp _ out "check_type"
        { type := "fixed", value_from_parent := true } _ (by decide) (by decide)
        (processField_fixed_parent _ g inp "check_type" _ rfl rfl) hr
    · exact lookup_of_keep _ g inp _ out "check_type"
        { type := "fixed", value_from_parent := true } _ (by decide) (by decide)
        (processField_fixed_parent _ g inp "check_type" _ rfl rfl) hr

theorem fixed_fields_c7_witness :
    (("postproc_results", postproc_fields) ∈ schemas) ∧
    (render "postproc_results" "00000000000000000000000000000000" noInput
        (mergeFields core_fields postproc_fields) =
      some [("id", "assertion_00000000"), ("failtype", "fail"),
            ("check_type", "postproc_results"), ("processor_key", "fasta-summary"),
            ("item_typ1e", "outputfile")]) ∧
    List.lookup "check_type"
        [("id", "assertion_00000000"), ("failtype", "fail"),
         ("check_type", "postproc_results"), ("processor_key", "fasta-summary"),
         ("item_typ1e", "outputfile")] = some "postproc_results" :=
  ⟨by decide, by decide,
   fixed_fields_c7.2 "postproc_results" postproc_fields (by decide)
     "00000000000000000000000000000000" noInput
     [("id", "assertion_00000000"), ("failtype", "fail"),
      ("check_type", "postproc_results"), ("processor_key", "fasta-summary"),
      ("item_typ1e", "outputfile")] (by decide)⟩

theorem c1_field (t g : String) (inp : UserInput) (fields : List (String × FieldMeta))
    (k : String) (m : FieldMeta) (hnd : (fields.map Prod.fst).Nodup) (hm : (k, m) ∈ fields)
    (hx : ∃ v, resolvedValue t g inp k m = some v ∧
      (keepValue (processField t g inp k m) = some v ↔ (v ≠ "" ∨ (m.optional = true ∧ v = "")))) :
    ∃ v, resolvedValue t g inp k m = some v ∧
      ((fields.filterMap (outEntry t g inp)).lookup k = some v ↔
        (v ≠ "" ∨ (m.optional = true ∧ v = ""))) := by
  obtain ⟨v, h1, h2⟩ := hx
  refine ⟨v, h1, ?_⟩
  rw [lookup_outEntry_mem t g inp fields k m hnd hm]
  exact h2

theorem c1_field_select (t g : String) (inp : UserInput) (fields : List (String × FieldMeta))
    (k : String) (m : FieldMeta) (hnd : (fields.map Prod.fst).Nodup) (hm : (k, m) ∈ fields)
    (htype : m.type = "select") (hne : m.options ≠ [])
    (hval : ∀ i, inp.sel k = some i → i < m.options.length)
    (hopts : ∀ v ∈ m.options, v ≠ "") :
    ∃ v, resolvedValue t g inp k m = some v ∧
      ((fields.filterMap (outEntry t g inp)).lookup k = some v ↔
        (v ≠ "" ∨ (m.optional = true ∧ v = ""))) := by
  obtain ⟨v, hres, hvm, hkeep⟩ := processField_select t g inp k m htype hne hval hopts
  refine c1_field t g inp fields k m hnd hm ⟨v, hres, ?_⟩
  rw [hkeep]
  exact ⟨fun _ => Or.inl (hopts v hvm), fun _ => rfl⟩

theorem c1_field_fixed (t g : String) (inp : UserInput) (fields : List (String × FieldMeta))
    (k : String) (m : FieldMeta) (v : String) (hnd : (fields.map Prod.fst).Nodup)
    (hm : (k, m) ∈ fields) (hres : resolvedValue t g inp k m = some v)
    (hkeep : processField t g inp k m = FieldOutcome.keep v) (hv : v ≠ "") :
    ∃ v2, resolvedValue t g inp k m = some v2 ∧
      ((fields.filterMap (outEntry t g inp)).lookup k = some v2 ↔
        (v2 ≠ "" ∨ (m.optional = true ∧ v2 = ""))) := by
  refine c1_field t g inp fields k m hnd hm ⟨v, hres, ?_⟩
  rw [hkeep]
  exact ⟨fun _ => Or.inl hv, fun _ => rfl⟩

/-- Claim C1: for every field the render pass walks (over the program's
registry, with well-formed widget state), the resolved value exists and
appears in the Output Document exactly when it is non-empty or the
descriptor is marked optional and the value is the empty string; an
empty value of a non-optional descriptor is omitted. -/
theorem inclusion_rule_c1 (t : String) (extra : List (String × FieldMeta))
    (hmem : (t, extra) ∈ schemas) (g : String) (inp : UserInput)
    (hsel : ValidSel inp (mergeFields core_fields extra)) :
    ∃ out, render t g inp (mergeFields core_fields extra) = some out ∧
      ∀ k m, (k, m) ∈ mergeFields core_fields extra →
        ∃ v, resolvedValue t g inp k m = some v ∧
          (out.lookup k = some v ↔ (v ≠ "" ∨ (m.optional = true ∧ v = ""))) := by
  simp only [schemas, List.mem_cons, List.not_mem_nil, or_false, Prod.mk.injEq] at hmem
  have hopts1 : ∀ v ∈ ["fail", "warn"], v ≠ "" := by decide
  have hopts2 : ∀ v ∈ known_processors, v ≠ "" := by decide
  rcases hmem with ⟨ht, he⟩ | ⟨ht, he⟩ <;> subst ht <;> subst he
  · have hnd : ((mergeFields core_fields postproc_fields).map Prod.fst).Nodup := by decide
    have hne : ∀ km ∈ mergeFields core_fields postproc_fields,
        processField "postproc_results" g inp km.1 km.2 ≠ FieldOutcome.err := by
      intro km hkm
      fin_cases hkm
      · exact processField_ne_err_of_ne_fixed _ _ inp _ _ (by decide)
      · exact processField_ne_err_of_ne_fixed _ _ inp _ _ (by decide)
      · exact processField_ne_err_of_ne_fixed _ _ inp _ _ (by decide)
      · rw [processField_fixed_parent _ _ inp _ _ rfl rfl]; simp
      · exact processField_ne_err_of_ne_fixed _ _ inp _ _ (by decide)
      · exact processField_ne_err_of_ne_fixed _ _ inp _ _ (by decide)
      · exact processField_ne_err_of_ne_fixed _ _ inp _ _ (by decide)
      · rw [processField_fixed_value _ _ inp _ _ "outputfile" rfl rfl rfl]; simp
    refine ⟨_, render_some_of_noErr _ _ _ _ hne, ?_⟩
    intro k m hkm
    have hkm2 : (k, m) ∈
        [("name", nameMeta), ("id", idMeta), ("failtype", failtypeMeta),
         ("check_type", checkTypeMeta), ("processor_key", processorKeyMeta),
         ("stat", { type := "expression",
                    placeholder := "e.g. data.format == \x27fasta\x27 and data.valid_format" }),
         ("postprocessed_file_pattern", { type := "string", placeholder := "e.g. .*fasta" }),
         ("item_typ1e", itemTyp1eMeta)] := hkm
    simp only [List.mem_cons, List.not_mem_nil, or_false, Prod.mk.injEq] at hkm2
    rcases hkm2 with h8 | h8 | h8 | h8 | h8 | h8 | h8 | h8 <;> obtain ⟨rfl, rfl⟩ := h8
    · exact c1_field _ g inp _ "name" nameMeta hnd (by decide)
        (processField_text _ g inp _ _ (Or.inl rfl))
    · exact c1_field _ g inp _ "id" idMeta hnd (by decide)
        (processField_text _ g inp _ _ (Or.inl rfl))
    · exact c1_field_select _ g inp _ "failtype" failtypeMeta hnd (by decide) rfl (by decide)
        (hsel ("failtype", failtypeMeta) (by decide) rfl) hopts1
    · exact c1_field_fixed _ g inp _ "check_type" checkTypeMeta "postproc_results" hnd
        (by decide) rfl (processField_fixed_parent _ g inp _ _ rfl rfl) (by decide)
    · exact c1_field_select _ g inp _ "processor_key" processorKeyMeta hnd (by decide) rfl
        (by decide) (hsel ("processor_key", processorKeyMeta) (by decide) rfl) hopts2
    · exact c1_field _ g inp _ "stat" _ hnd (by decide)
        (processField_text _ g inp _ _ (Or.inr rfl))
    · exact c1_field _ g inp _ "postprocessed_file_pattern" _ hnd (by decide)
        (processField_text _ g inp _ _ (Or.inl rfl))
    · exact c1_field_fixed _ g inp _ "item_typ1e" itemTyp1eMeta "outputfile" hnd (by decide)
        rfl (processField_fixed_value _ g inp _ _ "outputfile" rfl rfl rfl) (by decide)
  · have hnd : ((mergeFields core_fields tabular_fields).map Prod.fst).Nodup := by decide
    have hne : ∀ km ∈ mergeFields core_fields tabular_fields,
        processField "tabular_mdo_eval" g inp km.1 km.2 ≠ FieldOutcome.err := by
      intro km hkm
      fin_cases hkm
      · exact processField_ne_err_of_ne_fixed _ _ inp _ _ (by decide)
      · exact processField_ne_err_of_ne_fixed _ _ inp _ _ (by decide)
      · exact processField_ne_err_of_ne_fixed _ _ inp _ _ (by decide)
      · rw [processField_fixed_parent _ _ inp _ _ rfl rfl]; simp
      · exact processField_ne_err_of_ne_fixed _ _ inp _ _ (by decide)
      · exact processField_ne_err_of_ne_fixed _ _ inp _ _ (by decide)
      · exact processField_ne_err_of_ne_fixed _ _ inp _ _ (by decide)
      · exact processField_ne_err_of_ne_fixed _ _ inp _ _ (by decide)
    refine ⟨_, render_some_of_noErr _ _ _ _ hne, ?_⟩
    intro k m hkm
    have hkm2 : (k, m) ∈
        [("name", nameMeta), ("id", idMeta), ("failtype", failtypeMeta),
         ("check_type", checkTypeMeta),
         ("stat", { type := "expression",
                    placeholder := "e.g. data.rows.map(\x27%PF\x27).mean() > 0.9" }),
         ("file_rules", { type := "string", placeholder := "e.g. .*\\.csv$" }),
         ("delimiter", { type := "string", placeholder := "," }),
         ("comment_character", ({ type := "string", optional := true,
                                  placeholder := "#" } : FieldMeta))] := hkm
    simp only [List.mem_cons, List.not_mem_nil, or_false, Prod.mk.injEq] at hkm2
    rcases hkm2 with h8 | h8 | h8 | h8 | h8 | h8 | h8 | h8 <;> obtain ⟨rfl, rfl⟩ := h8
    · exact c1_field _ g inp _ "name" nameMeta hnd (by decide)
        (processField_text _ g inp _ _ (Or.inl rfl))
    · exact c1_field _ g inp _ "id" idMeta hnd (by decide)
        (processField_text _ g inp _ _ (Or.inl rfl))
    · exact c1_field_select _ g inp _ "failtype" failtypeMeta hnd (by decide) rfl (by decide)
        (hsel ("failtype", failtypeMeta) (by decide) rfl) hopts1
    · exact c1_field_fixed _ g inp _ "check_type" checkTypeMeta "tabular_mdo_eval" hnd
        (by decide) rfl (processField_fixed_parent _ g inp _ _ rfl rfl) (by decide)
    · exact c1_field _ g inp _ "stat" _ hnd (by decide)
        (processField_text _ g inp _ _ (Or.inr rfl))
    · exact c1_field _ g inp _ "file_rules" _ hnd (by decide)
        (processField_text _ g inp _ _ (Or.inl rfl))
    · exact c1_field _ g inp _ "delimiter" _ hnd (by decide)
        (processField_text _ g inp _ _ (Or.inl rfl))
    · exact c1_field _ g inp _ "comment_character" _ hnd (by decide)
        (processField_text _ g inp _ _ (Or.inl rfl))

theorem inclusion_rule_c1_witness :
    (("postproc_results", postproc_fields) ∈ schemas) ∧
    ValidSel noInput (mergeFields core_fields postproc_fields) ∧
    (∃ out, render "postproc_results" "" noInput (mergeFields core_fields postproc_fields) = some out ∧
      ∀ k m, (k, m) ∈ mergeFields core_fields postproc_fields →
        ∃ v, resolvedValue "postproc_results" "" noInput k m = some v ∧
          (out.lookup k = some v ↔ (v ≠ "" ∨ (m.optional = true ∧ v = "")))) :=
  ⟨by decide, fun _ _ _ _ hi => Option.noConfusion hi,
   inclusion_rule_c1 "postproc_results" postproc_fields (by decide) "" noInput
     (fun _ _ _ _ hi => Option.noConfusion hi)⟩

theorem c10_field_select (t g : String) (inp : UserInput) (fields : List (String × FieldMeta))
    (k : String) (m : FieldMeta) (hnd : (fields.map Prod.fst).Nodup) (hm : (k, m) ∈ fields)
    (htype : m.type = "select") (hne : m.options ≠ [])
    (hval : ∀ i, inp.sel k = some i → i < m.options.length)
    (hopts : ∀ v ∈ m.options, v ≠ "") :
    ∃ v, (fields.filterMap (outEntry t g inp)).lookup k = some v ∧ v ∈ m.options := by
  obtain ⟨v, _, hvm, hkeep⟩ := processField_select t g inp k m htype hne hval hopts
  refine ⟨v, ?_, hvm⟩
  rw [lookup_outEntry_mem t g inp fields k m hnd hm]
  exact hkeep

/-- Claim C10: invariant on every Output Document the program renders:
every select field appears in it, with a value among its descriptor's
enumerated options (never empty); hence `failtype` is always present
and in {fail, warn}, and for `postproc_results` the `processor_key` is
always present and in the known-processor list. -/
theorem select_invariant_c10 (t : String) (extra : List (String × FieldMeta))
    (hmem : (t, extra) ∈ schemas) (g : String) (inp : UserInput)
    (out : List (String × String))
    (hsel : ValidSel inp (mergeFields core_fields extra))
    (hr : render t g inp (mergeFields core_fields extra) = some out) :
    (∀ k m, (k, m) ∈ mergeFields core_fields extra → m.type = "select" →
       ∃ v, out.lookup k = some v ∧ v ∈ m.options) ∧
    (∃ v, out.lookup "failtype" = some v ∧ (v = "fail" ∨ v = "warn")) ∧
    (t = "postproc_results" →
       ∃ v, out.lookup "processor_key" = some v ∧ v ∈ known_processors) := by
  have hout := render_some_inv _ _ _ _ _ hr
  subst hout
  simp only [schemas, List.mem_cons, List.not_mem_nil, or_false, Prod.mk.injEq] at hmem
  have hopts1 : ∀ v ∈ ["fail", "warn"], v ≠ "" := by decide
  have hopts2 : ∀ v ∈ known_processors, v ≠ "" := by decide
  rcases hmem with ⟨ht, he⟩ | ⟨ht, he⟩ <;> subst ht <;> subst he
  · have hnd : ((mergeFields core_fields postproc_fields).map Prod.fst).Nodup := by decide
    have hft := c10_field_select "postproc_results" g inp
      (mergeFields core_fields postproc_fields) "failtype" failtypeMeta hnd (by decide) rfl
      (by decide) (hsel ("failtype", failtypeMeta) (by decide) rfl) hopts1
    have hpk := c10_field_select "postproc_results" g inp
      (mergeFields core_fields postproc_fields) "processor_key" processorKeyMeta hnd
      (by decide) rfl (by decide)
      (hsel ("processor_key", processorKeyMeta) (by decide) rfl) hopts2
    refine ⟨?_, ?_, fun _ => hpk⟩
    · intro k m hkm htype
      have hkm2 : (k, m) ∈
          [("name", nameMeta), ("id", idMeta), ("failtype", failtypeMeta),
           ("check_type", checkTypeMeta), ("processor_key", processorKeyMeta),
           ("stat", { type := "expression",
                      placeholder := "e.g. data.format == \x27fasta\x27 and data.valid_format" }),
           ("postprocessed_file_pattern", { type := "string", placeholder := "e.g. .*fasta" }),
           ("item_typ1e", itemTyp1eMeta)] := hkm
      simp only [List.mem_cons, List.not_mem_nil, or_false, Prod.mk.injEq] at hkm2
      rcases hkm2 with h8 | h8 | h8 | h8 | h8 | h8 | h8 | h8 <;> obtain ⟨rfl, rfl⟩ := h8
      · exact absurd htype (by decide)
      · exact absurd htype (by decide)
      · exact hft
      · exact absurd htype (by decide)
      · exact hpk
      · exact absurd htype (by decide)
      · exact absurd htype (by decide)
      · exact absurd htype (by decide)
    · obtain ⟨v, hl, hvm⟩ := hft
      refine ⟨v, hl, ?_⟩
      simpa [failtypeMeta] using hvm
  · have hnd : ((mergeFields core_fields tabular_fields).map Prod.fst).Nodup := by decide
    have hft := c10_field_select "tabular_mdo_eval" g inp
      (mergeFields core_fields tabular_fields) "failtype" failtypeMeta hnd (by decide) rfl
      (by decide) (hsel ("failtype", failtypeMeta) (by decide) rfl) hopts1
    refine ⟨?_, ?_, fun hteq => absurd hteq (by decide)⟩
    · intro k m hkm htype
      have hkm2 : (k, m) ∈
          [("name", nameMeta), ("id", idMeta), ("failtype", failtypeMeta),
           ("check_type", checkTypeMeta),
           ("stat", { type := "expression",
                      placeholder := "e.g. data.rows.map(\x27%PF\x27).mean() > 0.9" }),
           ("file_rules", { type := "string", placeholder := "e.g. .*\\.csv$" }),
           ("delimiter", { type := "string", placeholder := "," }),
           ("comment_character", ({ type := "string", optional := true,
                                    placeholder := "#" } : FieldMeta))] := hkm
      simp only [List.mem_cons, List.not_mem_nil, or_false, Prod.mk.injEq] at hkm2
      rcases hkm2 with h8 | h8 | h8 | h8 | h8 | h8 | h8 | h8 <;> obtain ⟨rfl, rfl⟩ := h8
      · exact absurd htype (by decide)
      · exact absurd htype (by decide)
      · exact hft
      · exact absurd htype (by decide)
      · exact absurd htype (by decide)
      · exact absurd htype (by decide)
      · exact absurd htype (by decide)
      · exact absurd htype (by decide)
    · obtain ⟨v, hl, hvm⟩ := hft
      refine ⟨v, hl, ?_⟩
      simpa [failtypeMeta] using hvm

theorem select_invariant_c10_witness :
    (("postproc_results", postproc_fields) ∈ schemas) ∧
    ValidSel noInput (mergeFields core_fields postproc_fields) ∧
    (render "postproc_results" "00000000000000000000000000000000" noInput
        (mergeFields core_fields postproc_fields) =
      some [("id", "assertion_00000000"), ("failtype", "fail"),
            ("check_type", "postproc_results"), ("processor_key", "fasta-summary"),
            ("item_typ1e", "outputfile")]) ∧
    ((∀ k m, (k, m) ∈ mergeFields core_fields postproc_fields → m.type = "select" →
        ∃ v, List.lookup k
            [("id", "assertion_00000000"), ("failtype", "fail"),
             ("check_type", "postproc_results"), ("processor_key", "fasta-summary"),
             ("item_typ1e", "outputfile")] = some v ∧ v ∈ m.options) ∧
     (∃ v, List.lookup "failtype"
            [("id", "assertion_00000000"), ("failtype", "fail"),
             ("check_type", "postproc_results"), ("processor_key", "fasta-summary"),
             ("item_typ1e", "outputfile")] = some v ∧ (v = "fail" ∨ v = "warn")) ∧
     ("postproc_results" = "postproc_results" →
        ∃ v, List.lookup "processor_key"
            [("id", "assertion_00000000"), ("failtype", "fail"),
             ("check_type", "postproc_results"), ("processor_key", "fasta-summary"),
             ("item_typ1e", "outputfile")] = some v ∧ v ∈ known_processors)) :=
  ⟨by decide, fun _ _ _ _ hi => Option.noConfusion hi, by decide,
   select_invariant_c10 "postproc_results" postproc_fields (by decide)
     "00000000000000000000000000000000" noInput
     [("id", "assertion_00000000"), ("failtype", "fail"),
      ("check_type", "postproc_results"), ("processor_key", "fasta-summary"),
      ("item_typ1e", "outputfile")]
     (fun _ _ _ _ hi => Option.noConfusion hi) (by decide)⟩

theorem c8_split (t g1 g2 : String) (inp : UserInput) (rest : List (String × FieldMeta))
    (hrest : ∀ km ∈ rest, km.2.default ≠ FieldDefault.genId ∧
      processField t g1 inp km.1 km.2 ≠ FieldOutcome.err)
    (hg1 : HexSeed8 g1) (hg2 : HexSeed8 g2) :
    ∃ o1 o2,
      render t g1 inp (("name", nameMeta) :: ("id", idMeta) :: rest) = some o1 ∧
      render t g2 inp (("name", nameMeta) :: ("id", idMeta) :: rest) = some o2 ∧
      (∀ k, k ≠ "id" → o1.lookup k = o2.lookup k) ∧
      (o1.lookup "id" ≠ o2.lookup "id" →
        (∃ v, o1.lookup "id" = some v ∧ matchesIdPattern v = true) ∧
        (∃ v, o2.lookup "id" = some v ∧ matchesIdPattern v = true)) := by
  have hcong : ∀ km ∈ rest, processField t g1 inp km.1 km.2 = processField t g2 inp km.1 km.2 :=
    fun km hm => processField_g_congr t g1 g2 inp km.1 km.2 (hrest km hm).1
  have hne1 : ∀ km ∈ (("name", nameMeta) :: ("id", idMeta) :: rest),
      processField t g1 inp km.1 km.2 ≠ FieldOutcome.err := by
    intro km hm
    rcases List.mem_cons.mp hm with rfl | hm2
    · exact processField_ne_err_of_ne_fixed _ _ inp _ _ (by decide)
    rcases List.mem_cons.mp hm2 with rfl | hm3
    · exact processField_ne_err_of_ne_fixed _ _ inp _ _ (by decide)
    · exact (hrest km hm3).2
  have hne2 : ∀ km ∈ (("name", nameMeta) :: ("id", idMeta) :: rest),
      processField t g2 inp km.1 km.2 ≠ FieldOutcome.err := by
    intro km hm
    rcases List.mem_cons.mp hm with rfl | hm2
    · exact processField_ne_err_of_ne_fixed _ _ inp _ _ (by decide)
    rcases List.mem_cons.mp hm2 with rfl | hm3
    · exact processField_ne_err_of_ne_fixed _ _ inp _ _ (by decide)
    · rw [← hcong km hm3]
      exact (hrest km hm3).2
  have hid1 : outEntry t g1 inp ("id", idMeta) =
      some ("id", (inp.text "id").getD ("assertion_" ++ g1.take 8)) := rfl
  have hid2 : outEntry t g2 inp ("id", idMeta) =
      some ("id", (inp.text "id").getD ("assertion_" ++ g2.take 8)) := rfl
  have hnameC : outEntry t g2 inp ("name", nameMeta) = outEntry t g1 inp ("name", nameMeta) :=
    (outEntry_g_congr t g1 g2 inp _ (by decide)).symm
  have hrestC : List.filterMap (outEntry t g2 inp) rest =
      List.filterMap (outEntry t g1 inp) rest :=
    (filterMap_outEntry_congr t g1 g2 inp rest (fun km hm => (hrest km hm).1)).symm
  have e1 : List.filterMap (outEntry t g1 inp) (("name", nameMeta) :: ("id", idMeta) :: rest) =
      (outEntry t g1 inp ("name", nameMeta)).toList ++
        ("id", (inp.text "id").getD ("assertion_" ++ g1.take 8)) ::
          List.filterMap (outEntry t g1 inp) rest := by
    rw [filterMap_cons_toList, filterMap_cons_toList, hid1]
    simp
  have e2 : List.filterMap (outEntry t g2 inp) (("name", nameMeta) :: ("id", idMeta) :: rest) =
      (outEntry t g1 inp ("name", nameMeta)).toList ++
        ("id", (inp.text "id").getD ("assertion_" ++ g2.take 8)) ::
          List.filterMap (outEntry t g1 inp) rest := by
    rw [filterMap_cons_toList, filterMap_cons_toList, hid2, hnameC, hrestC]
    simp
  have hXid : List.lookup "id" (outEntry t g1 inp ("name", nameMeta)).toList = none := by
    cases hX : outEntry t g1 inp ("name", nameMeta) with
    | none => rfl
    | some p =>
      have h1 : p.1 = "name" := outEntry_fst hX
      cases p with
      | mk pk pv =>
        have h2 : pk = "name" := h1
        subst h2
        rfl
  refine ⟨_, _, render_some_of_noErr _ _ _ _ hne1, render_some_of_noErr _ _ _ _ hne2, ?_, ?_⟩
  · intro k hk
    rw [e1, e2]
    exact lookup_append_cons_ne k "id" _ _ _ _ hk
  · rw [e1, e2]
    intro hne_
    have hl1 : ((outEntry t g1 inp ("name", nameMeta)).toList ++
        ("id", (inp.text "id").getD ("assertion_" ++ g1.take 8)) ::
          List.filterMap (outEntry t g1 inp) rest).lookup "id" =
        some ((inp.text "id").getD ("assertion_" ++ g1.take 8)) := by
      rw [lookup_append_left_none "id" _ _ hXid]
      simp [List.lookup]
    have hl2 : ((outEntry t g1 inp ("name", nameMeta)).toList ++
        ("id", (inp.text "id").getD ("assertion_" ++ g2.take 8)) ::
          List.filterMap (outEntry t g1 inp) rest).lookup "id" =
        some ((inp.text "id").getD ("assertion_" ++ g2.take 8)) := by
      rw [lookup_append_left_none "id" _ _ hXid]
      simp [List.lookup]
    cases ht : inp.text "id" with
    | some s =>
      exfalso
      apply hne_
      rw [hl1, hl2, ht, Option.getD_some, Option.getD_some]
    | none =>
      rw [ht] at hl1 hl2
      simp only [Option.getD_none] at hl1 hl2
      exact ⟨⟨_, hl1, matchesIdPattern_append (g1.take 8) hg1.1 hg1.2⟩,
        ⟨_, hl2, matchesIdPattern_append (g2.take 8) hg2.1 hg2.2⟩⟩

/-- Claim C8: rendering twice with identical field values yields
identical Output Documents at every key other than `id`; the `id`
value, whose default is freshly generated per render, may differ
between the two runs, but whenever it does, both values match the
pattern `assertion_` followed by exactly 8 hexadecimal characters. -/
theorem idempotence_c8 (t : String) (extra : List (String × FieldMeta))
    (hmem : (t, extra) ∈ schemas) (inp : UserInput) (g1 g2 : String)
    (hg1 : HexSeed8 g1) (hg2 : HexSeed8 g2) :
    ∃ o1 o2, render t g1 inp (mergeFields core_fields extra) = some o1 ∧
      render t g2 inp (mergeFields core_fields extra) = some o2 ∧
      (∀ k, k ≠ "id" → o1.lookup k = o2.lookup k) ∧
      (o1.lookup "id" ≠ o2.lookup "id" →
        (∃ v, o1.lookup "id" = some v ∧ matchesIdPattern v = true) ∧
        (∃ v, o2.lookup "id" = some v ∧ matchesIdPattern v = true)) := by
  simp only [schemas, List.mem_cons, List.not_mem_nil, or_false, Prod.mk.injEq] at hmem
  rcases hmem with ⟨ht, he⟩ | ⟨ht, he⟩ <;> subst ht <;> subst he
  · have hf : mergeFields core_fields postproc_fields =
        ("name", nameMeta) :: ("id", idMeta) ::
          [("failtype", failtypeMeta), ("check_type", checkTypeMeta),
           ("processor_key", processorKeyMeta),
           ("stat", { type := "expression",
                      placeholder := "e.g. data.format == \x27fasta\x27 and data.valid_format" }),
           ("postprocessed_file_pattern", { type := "string", placeholder := "e.g. .*fasta" }),
           ("item_typ1e", itemTyp1eMeta)] := by decide
    rw [hf]
    apply c8_split _ g1 g2 inp _ ?_ hg1 hg2
    intro km hm
    simp only [List.mem_cons, List.not_mem_nil, or_false] at hm
    rcases hm with rfl | rfl | rfl | rfl | rfl | rfl
    · exact ⟨by decide, processField_ne_err_of_ne_fixed _ _ inp _ _ (by decide)⟩
    · refine ⟨by decide, ?_⟩
      rw [processField_fixed_parent _ g1 inp "check_type" checkTypeMeta rfl rfl]
      simp
    · exact ⟨by decide, processField_ne_err_of_ne_fixed _ _ inp _ _ (by decide)⟩
    · exact ⟨by decide, processField_ne_err_of_ne_fixed _ _ inp _ _ (by decide)⟩
    · exact ⟨by decide, processField_ne_err_of_ne_fixed _ _ inp _ _ (by decide)⟩
    · refine ⟨by decide, ?_⟩
      rw [processField_fixed_value _ g1 inp "item_typ1e" itemTyp1eMeta "outputfile" rfl rfl rfl]
      simp
  · have hf : mergeFields core_fields tabular_fields =
        ("name", nameMeta) :: ("id", idMeta) ::
          [("failtype", failtypeMeta), ("check_type", checkTypeMeta),
           ("stat", { type := "expression",
                      placeholder := "e.g. data.rows.map(\x27%PF\x27).mean() > 0.9" }),
           ("file_rules", { type := "string", placeholder := "e.g. .*\\.csv$" }),
           ("delimiter", { type := "string", placeholder := "," }),
           ("comment_character", ({ type := "string", optional := true,
                                    placeholder := "#" } : FieldMeta))] := by decide
    rw [hf]
    apply c8_split _ g1 g2 inp _ ?_ hg1 hg2
    intro km hm
    simp only [List.mem_cons, List.not_mem_nil, or_false] at hm
    rcases hm with rfl | rfl | rfl | rfl | rfl | rfl
    · exact ⟨by decide, processField_ne_err_of_ne_fixed _ _ inp _ _ (by decide)⟩
    · refine ⟨by decide, ?_⟩
      rw [processField_fixed_parent _ g1 inp "check_type" checkTypeMeta rfl rfl]
      simp
    · exact ⟨by decide, processField_ne_err_of_ne_fixed _ _ inp _ _ (by decide)⟩
    · exact ⟨by decide, processField_ne_err_of_ne_fixed _ _ inp _ _ (by decide)⟩
    · exact ⟨by decide, processField_ne_err_of_ne_fixed _ _ inp _ _ (by decide)⟩
    · exact ⟨by decide, processField_ne_err_of_ne_fixed _ _ inp _ _ (by decide)⟩

theorem idempotence_c8_witness :
    (("postproc_results", postproc_fields) ∈ schemas) ∧
    HexSeed8 "aaaaaaaa000000000000000000000000" ∧
    HexSeed8 "bbbbbbbb000000000000000000000000" ∧
    (∃ o1 o2, render "postproc_results" "aaaaaaaa000000000000000000000000" noInput
        (mergeFields core_fields postproc_fields) = some o1 ∧
      render "postproc_results" "bbbbbbbb000000000000000000000000" noInput
        (mergeFields core_fields postproc_fields) = some o2 ∧
      (∀ k, k ≠ "id" → o1.lookup k = o2.lookup k) ∧
      (o1.lookup "id" ≠ o2.lookup "id" →
        (∃ v, o1.lookup "id" = some v ∧ matchesIdPattern v = true) ∧
        (∃ v, o2.lookup "id" = some v ∧ matchesIdPattern v = true))) :=
  ⟨by decide, by decide, by decide,
   idempotence_c8 "postproc_results" postproc_fields (by decide) noInput
     "aaaaaaaa000000000000000000000000" "bbbbbbbb000000000000000000000000"
     (by decide) (by decide)⟩

theorem expression_validation_c4_witness :
    (pyStrip "x" ≠ "") ∧
    ((parseExpr "x" = Except.ok () ∧ exprFeedback "x" = ExprFeedback.valid) ∨
     (∃ e, parseExpr "x" = Except.error e ∧
       exprFeedback "x" = ExprFeedback.invalid ("Invalid expression: " ++ ParseErr.message e) ∧
       ("Invalid expression: " ++ ParseErr.message e) ≠ "")) :=
  ⟨by decide, expression_validation_c4.2.1 "x" (by decide)⟩
